import Mathlib

/-!
Verification of the quantpricer Black-Scholes core against its specification.

The repository contains two parallel implementations of the numerical core:
`src/src/core` (used by the tests and the implied-volatility solver) and
`src/backend/src/core` (a variant with defensive clamping and bounds checks).
Both are embedded here over `ℝ`: the primary tree in the root namespace
`QuantPricer`, the backend tree in `QuantPricer.Backend`.

Python exceptions are modelled with an explicit error type `PyErr`; fallible
functions return `Except PyErr α`.  Python's `math.erf` is modelled by the
defining integral of the error function.  IEEE-754 rounding is idealized to
exact real arithmetic; branch structure, evaluation order and raised errors
follow the Python source line by line.
-/

noncomputable section

namespace QuantPricer

open MeasureTheory intervalIntegral Set

/-- Option type tag, mirroring the `Literal["call", "put"]` annotations. -/
inductive OptionType
  | call
  | put
deriving DecidableEq

/-- Python exceptions raised by the core.  `valueError msg` is
`ValueError(msg)`; the structured constructors model the f-string
`ValueError`s of `iv.py` whose messages interpolate numeric values:
`priceAboveUpper p b` is `ValueError(f"Price {p} exceeds upper bound {b}")`,
`priceBelowLower p b` is `ValueError(f"Price {p} below lower bound {b}")`,
`priceOutsideT0 p` is
`ValueError(f"Price {p} is outside no-arbitrage bounds for T=0")`, and
`convergenceFailure n` is
`ValueError(f"Failed to converge after {n} iterations")`. -/
inductive PyErr
  | valueError (msg : String)
  | zeroDivisionError
  | priceAboveUpper (price bound : ℝ)
  | priceBelowLower (price bound : ℝ)
  | priceOutsideT0 (price : ℝ)
  | convergenceFailure (iters : ℕ)

/-- A Python float value as produced by `d1`: either a finite real or one of
the two infinities `float('inf')` / `float('-inf')`. -/
inductive PyFloat
  | val (x : ℝ)
  | inf
  | negInf
deriving DecidableEq

/-- Python float division: raises `ZeroDivisionError` when the denominator is
zero, otherwise yields the quotient. -/
def pydiv (num den : ℝ) : Except PyErr ℝ :=
  if den = 0 then .error .zeroDivisionError else .ok (num / den)

/-- Python `math.log`: raises `ValueError("math domain error")` on a
non-positive argument. -/
def pylog (x : ℝ) : Except PyErr ℝ :=
  if x ≤ 0 then .error (.valueError "math domain error") else .ok (Real.log x)

/-- Python `math.sqrt`: raises `ValueError("math domain error")` on a
negative argument. -/
def pysqrt (x : ℝ) : Except PyErr ℝ :=
  if x < 0 then .error (.valueError "math domain error") else .ok (Real.sqrt x)

/-- Module constant `SQRT2PI = sqrt(2 * pi)` of `normals.py`. -/
def SQRT2PI : ℝ := Real.sqrt (2 * Real.pi)

/-- Module constant `SQRT_2 = sqrt(2.0)` of `normals.py`. -/
def SQRT_2 : ℝ := Real.sqrt 2

/-- Error function, modelling Python's `math.erf` by its defining integral
`erf x = 2/√π · ∫ t in 0..x, exp (-t²)`. -/
def erf (x : ℝ) : ℝ := 2 / Real.sqrt Real.pi * ∫ t in (0:ℝ)..x, Real.exp (-t ^ 2)

/-- Embedding of `normal_pdf` from `src/src/core/normals.py`:
`exp(-0.5*x*x) / SQRT2PI`, with no clamping of extreme arguments. -/
def normal_pdf (x : ℝ) : ℝ := Real.exp (-0.5 * x * x) / SQRT2PI

/-- Embedding of `normal_cdf` from `src/src/core/normals.py`:
`0.5 * (1.0 + erf(x / SQRT_2))`, with no clamping of extreme arguments. -/
def normal_cdf (x : ℝ) : ℝ := 0.5 * (1 + erf (x / SQRT_2))

/-- Embedding of `d1` from `src/src/core/bs.py`.  For `T ≤ 0` it returns an
infinity chosen by the sign of the moneyness.  Otherwise it evaluates
`(math.log(S / K) + (r + 0.5 * sigma * sigma) * T) / (sigma * math.sqrt(T))`
in Python's evaluation order: the division `S / K` first (possible
`ZeroDivisionError`), then `math.log` (possible `ValueError`), then the final
division (possible `ZeroDivisionError` when `sigma = 0`).  There is no check
on the sign of `sigma`. -/
def d1 (S K r sigma T : ℝ) : Except PyErr PyFloat :=
  if T ≤ 0 then .ok (if S ≥ K then .inf else .negInf)
  else
    match pydiv S K with
    | .error e => .error e
    | .ok sk =>
      match pylog sk with
      | .error e => .error e
      | .ok lg =>
        match pydiv (lg + (r + 0.5 * sigma * sigma) * T) (sigma * Real.sqrt T) with
        | .error e => .error e
        | .ok v => .ok (.val v)

/-- Embedding of `d2` from `src/src/core/bs.py`:
`d1_value - sigma * math.sqrt(T)`, with no special case for `T ≤ 0`
(for `T = 0` this returns `d1_value` itself; for `T < 0` the `math.sqrt`
raises `ValueError`). -/
def d2 (d1_value sigma T : ℝ) : Except PyErr ℝ :=
  match pysqrt T with
  | .error e => .error e
  | .ok st => .ok (d1_value - sigma * st)

/-- Embedding of `_validate_inputs` from `src/src/core/bs.py`. -/
def _validate_inputs (S K r sigma T : ℝ) : Except PyErr Unit :=
  if S ≤ 0 then .error (.valueError "Stock price must be positive")
  else if K ≤ 0 then .error (.valueError "Strike price must be positive")
  else if sigma < 0 then .error (.valueError "Volatility must be non-negative")
  else if T < 0 then .error (.valueError "Time to expiration must be non-negative")
  else .ok ()

/-- Extracts the finite value of `d1`.  Every call site in the source
(`price_call`, `price_put`, `delta`, `_vega_function`) invokes `d1` only
after establishing `0 < T`, under which `d1` never yields an infinity, so the
two infinity branches below are dead code at every call site; they are mapped
to an arbitrary value. -/
def d1Fin (S K r sigma T : ℝ) : Except PyErr ℝ :=
  match d1 S K r sigma T with
  | .error e => .error e
  | .ok (.val x) => .ok x
  | .ok .inf => .ok 0
  | .ok .negInf => .ok 0

/-- Embedding of `price_call` from `src/src/core/bs.py`: validation, then the
`T == 0` intrinsic shortcut, then the `sigma == 0` discounted-forward
shortcut, then the Black-Scholes formula
`S * normal_cdf(d1) - K * exp(-r*T) * normal_cdf(d2)`. -/
def price_call (S K T r sigma : ℝ) : Except PyErr ℝ :=
  match _validate_inputs S K r sigma T with
  | .error e => .error e
  | .ok _ =>
    if T = 0 then .ok (max 0 (S - K))
    else if sigma = 0 then .ok (max 0 (S - K * Real.exp (-r * T)))
    else
      match d1Fin S K r sigma T with
      | .error e => .error e
      | .ok d1_val =>
        match d2 d1_val sigma T with
        | .error e => .error e
        | .ok d2_val =>
          .ok (S * normal_cdf d1_val - K * Real.exp (-r * T) * normal_cdf d2_val)

/-- Embedding of `price_put` from `src/src/core/bs.py`: validation, then the
`T == 0` intrinsic shortcut, then the `sigma == 0` discounted-forward
shortcut, then the Black-Scholes formula
`K * exp(-r*T) * normal_cdf(-d2) - S * normal_cdf(-d1)`. -/
def price_put (S K T r sigma : ℝ) : Except PyErr ℝ :=
  match _validate_inputs S K r sigma T with
  | .error e => .error e
  | .ok _ =>
    if T = 0 then .ok (max 0 (K - S))
    else if sigma = 0 then .ok (max 0 (K * Real.exp (-r * T) - S))
    else
      match d1Fin S K r sigma T with
      | .error e => .error e
      | .ok d1_val =>
        match d2 d1_val sigma T with
        | .error e => .error e
        | .ok d2_val =>
          .ok (K * Real.exp (-r * T) * normal_cdf (-d2_val) - S * normal_cdf (-d1_val))

/-- Embedding of `delta` from `src/src/core/greeks.py`.  Note that, unlike
the price functions, `delta` performs no input validation: its degenerate
branches return numeric values for arbitrary `S`, `K`. -/
def delta (S K T r sigma : ℝ) (option_type : OptionType) : Except PyErr ℝ :=
  if T ≤ 0 then
    .ok (match option_type with
      | .call => if S > K then 1 else if S = K then 0.5 else 0
      | .put => if S < K then -1 else if S = K then -0.5 else 0)
  else if sigma ≤ 0 then
    .ok (match option_type with
      | .call => if S > K * Real.exp (-r * T) then 1 else 0
      | .put => if S < K * Real.exp (-r * T) then -1 else 0)
  else
    match d1Fin S K r sigma T with
    | .error e => .error e
    | .ok d1_val =>
      .ok (match option_type with
        | .call => normal_cdf d1_val
        | .put => normal_cdf d1_val - 1)

namespace Backend

/-- Embedding of `normal_pdf` from `src/backend/src/core/normals.py`: clamps
`|x| > 37` to exactly `0.0`, then guards the exponent against the
`MIN_EXP = -700` / `MAX_EXP = 700` thresholds, then computes
`exp(-0.5*x*x) / SQRT2PI`. -/
def normal_pdf (x : ℝ) : ℝ :=
  if |x| > 37 then 0
  else if -0.5 * x * x < -700 then 0
  else if -0.5 * x * x > 700 then 0
  else Real.exp (-0.5 * x * x) / SQRT2PI

/-- Embedding of `safe_log` from `src/backend/src/core/normals.py`. -/
def safe_log (x : ℝ) : Except PyErr ℝ :=
  if x ≤ 0 then .error (.valueError "Cannot take logarithm of non-positive number")
  else .ok (Real.log x)

/-- Embedding of `safe_sqrt` from `src/backend/src/core/normals.py`. -/
def safe_sqrt (x : ℝ) : Except PyErr ℝ :=
  if x < 0 then .error (.valueError "Cannot take square root of negative number")
  else .ok (Real.sqrt x)

/-- Message of an exception, as interpolated by the `f"... {e}"` re-wrapping
in the backend's `d1`/`d2`.  Only `valueError` and `zeroDivisionError` can
arise inside those `try` blocks; the structured `iv.py` errors are given a
placeholder as they cannot occur there. -/
def errMsg : PyErr → String
  | .valueError m => m
  | .zeroDivisionError => "float division by zero"
  | _ => ""

/-- Embedding of `d1` from `src/backend/src/core/bs.py`: the `T ≤ 0`
infinity branch, then the explicit `sigma ≤ 0` rejection, then the guarded
formula whose `ValueError`/`ZeroDivisionError`s are re-raised as
`ValueError(f"Error in d1 calculation: {e}")`. -/
def d1 (S K r sigma T : ℝ) : Except PyErr PyFloat :=
  if T ≤ 0 then .ok (if S ≥ K then .inf else .negInf)
  else if sigma ≤ 0 then
    .error (.valueError "Volatility must be positive for d1 calculation")
  else
    match ((match pydiv S K with
      | .error e => .error e
      | .ok sk =>
        match safe_log sk with
        | .error e => .error e
        | .ok log_term =>
          match safe_sqrt T with
          | .error e => .error e
          | .ok sqT => pydiv (log_term + (r + 0.5 * sigma * sigma) * T) (sigma * sqT)) :
        Except PyErr ℝ) with
    | .ok v => .ok (.val v)
    | .error e => .error (.valueError ("Error in d1 calculation: " ++ errMsg e))

/-- Embedding of `d2` from `src/backend/src/core/bs.py`: for `T ≤ 0` it
returns an infinity chosen by the sign of `d1_value`; for `sigma ≤ 0` it
raises; otherwise it computes `d1_value - sigma * safe_sqrt(T)`, re-raising
any `ValueError` as `ValueError(f"Error in d2 calculation: {e}")`. -/
def d2 (d1_value sigma T : ℝ) : Except PyErr PyFloat :=
  if T ≤ 0 then .ok (if d1_value > 0 then .inf else .negInf)
  else if sigma ≤ 0 then
    .error (.valueError "Volatility must be positive for d2 calculation")
  else
    match safe_sqrt T with
    | .ok st => .ok (.val (d1_value - sigma * st))
    | .error e => .error (.valueError ("Error in d2 calculation: " ++ errMsg e))

end Backend

/-- Embedding of `_price_function` from `src/src/core/iv.py`:
`BS_price(sigma) - target_price`, dispatching on the option type. -/
def _price_function (S K T r sigma : ℝ) (option_type : OptionType)
    (target_price : ℝ) : Except PyErr ℝ :=
  match (match option_type with
    | .call => price_call S K T r sigma
    | .put => price_put S K T r sigma) with
  | .error e => .error e
  | .ok calculated_price => .ok (calculated_price - target_price)

/-- Embedding of `_vega_function` from `src/src/core/iv.py`: `0.0` when
`T ≤ 0` or `sigma ≤ 0`, else `S * sqrt(T) * normal_pdf(d1)`. -/
def _vega_function (S K T r sigma : ℝ) : Except PyErr ℝ :=
  if T ≤ 0 ∨ sigma ≤ 0 then .ok 0
  else
    match d1Fin S K r sigma T with
    | .error e => .error e
    | .ok d1_val => .ok (S * Real.sqrt T * normal_pdf d1_val)

/-- Embedding of `_check_no_arbitrage_bounds` from `src/src/core/iv.py`. -/
def _check_no_arbitrage_bounds (S K T r : ℝ) (option_type : OptionType)
    (target_price : ℝ) : Except PyErr Unit :=
  if T ≤ 0 then
    let intrinsic := match option_type with
      | .call => max 0 (S - K)
      | .put => max 0 (K - S)
    if |target_price - intrinsic| > 1e-10 then .error (.priceOutsideT0 target_price)
    else .ok ()
  else
    let upper_bound := match option_type with
      | .call => S
      | .put => K * Real.exp (-r * T)
    let lower_bound := match option_type with
      | .call => max 0 (S - K * Real.exp (-r * T))
      | .put => max 0 (K * Real.exp (-r * T) - S)
    if target_price > upper_bound + 1e-10 then
      .error (.priceAboveUpper target_price upper_bound)
    else if target_price < lower_bound - 1e-10 then
      .error (.priceBelowLower target_price lower_bound)
    else .ok ()

/-- Embedding of the bisection loop of `implied_vol_from_price`
(`src/src/core/iv.py`): runs for at most the given fuel, returning
`Sum.inl sigma_mid` on the `|f(mid)| < tol` early exit, and
`Sum.inr (sigma_low, sigma_high)` with the final bracket when the iteration
budget is exhausted. -/
def bisectLoop (S K T r : ℝ) (option_type : OptionType) (price tol : ℝ) :
    ℕ → ℝ → ℝ → ℝ → ℝ → Except PyErr (Sum ℝ (ℝ × ℝ))
  | 0, sigma_low, sigma_high, _, _ => .ok (.inr (sigma_low, sigma_high))
  | n + 1, sigma_low, sigma_high, f_low, f_high =>
    let sigma_mid := (sigma_low + sigma_high) / 2
    match _price_function S K T r sigma_mid option_type price with
    | .error e => .error e
    | .ok f_mid =>
      if |f_mid| < tol then .ok (.inl sigma_mid)
      else if f_mid * f_low > 0 then
        bisectLoop S K T r option_type price tol n sigma_mid sigma_high f_mid f_high
      else
        bisectLoop S K T r option_type price tol n sigma_low sigma_mid f_low f_mid

/-- Embedding of the Newton-Raphson polish loop of `implied_vol_from_price`
(`src/src/core/iv.py`).  The bracket endpoints `sigma_low`, `sigma_high` are
plain parameters because the Python loop never assigns them; the loop state
is `sigma_guess` alone.  Exhausting the fuel models the final
`raise ValueError(f"Failed to converge after {max_iter} iterations")`. -/
def newtonLoop (S K T r : ℝ) (option_type : OptionType)
    (price tol sigma_low sigma_high : ℝ) (max_iter : ℕ) :
    ℕ → ℝ → Except PyErr ℝ
  | 0, _ => .error (.convergenceFailure max_iter)
  | n + 1, sigma_guess =>
    match _price_function S K T r sigma_guess option_type price with
    | .error e => .error e
    | .ok f_val =>
      if |f_val| < tol then .ok sigma_guess
      else
        match _vega_function S K T r sigma_guess with
        | .error e => .error e
        | .ok vega_val =>
          if |vega_val| < 1e-12 then .ok ((sigma_low + sigma_high) / 2)
          else
            let sigma_new := sigma_guess - f_val / vega_val
            let sigma_new := if sigma_new ≤ 0 then sigma_guess / 2 else sigma_new
            if |sigma_new - sigma_guess| < tol then .ok sigma_new
            else newtonLoop S K T r option_type price tol sigma_low sigma_high max_iter n sigma_new

/-- Bisection phase followed by the Newton phase, as in the source: the
Newton phase starts from the midpoint of whatever bracket bisection ended
with. -/
def runPhases (S K T r : ℝ) (option_type : OptionType) (price tol : ℝ)
    (max_iter : ℕ) (sigma_low sigma_high f_low f_high : ℝ) : Except PyErr ℝ :=
  match bisectLoop S K T r option_type price tol max_iter sigma_low sigma_high f_low f_high with
  | .error e => .error e
  | .ok (.inl sigma_mid) => .ok sigma_mid
  | .ok (.inr (lo, hi)) =>
    newtonLoop S K T r option_type price tol lo hi max_iter max_iter ((lo + hi) / 2)

/-- Embedding of `implied_vol_from_price` from `src/src/core/iv.py`:
no-arbitrage check, immediate `0.0` at `T ≤ 0`, initial bracket
`[1e-6, 5.0]`, the two bracket widenings (`sigma_low = 1e-8`, then
`sigma_high = 10.0`), then bisection followed by Newton-Raphson.  The Python
defaults are `tol = 1e-8`, `max_iter = 100`, passed explicitly here. -/
def implied_vol_from_price (price S K r T : ℝ) (is_call : Bool)
    (tol : ℝ) (max_iter : ℕ) : Except PyErr ℝ :=
  let option_type : OptionType := if is_call then .call else .put
  match _check_no_arbitrage_bounds S K T r option_type price with
  | .error e => .error e
  | .ok _ =>
    if T ≤ 0 then .ok 0
    else
      match _price_function S K T r 1e-6 option_type price with
      | .error e => .error e
      | .ok f_low =>
        match _price_function S K T r 5 option_type price with
        | .error e => .error e
        | .ok f_high =>
          if f_low * f_high > 0 then
            match _price_function S K T r 1e-8 option_type price with
            | .error e => .error e
            | .ok f_low2 =>
              if f_low2 * f_high > 0 then
                match _price_function S K T r 10 option_type price with
                | .error e => .error e
                | .ok f_high2 =>
                  if f_low2 * f_high2 > 0 then
                    .error (.valueError "Cannot find valid volatility bracket")
                  else runPhases S K T r option_type price tol max_iter 1e-8 10 f_low2 f_high2
              else runPhases S K T r option_type price tol max_iter 1e-8 5 f_low2 f_high
          else runPhases S K T r option_type price tol max_iter 1e-6 5 f_low f_high

/-- The Newton-phase execution starting from `sigma_guess` with the given
fuel reaches the near-zero-vega fallback `|vega| < 1e-12`: either it fires at
the current iterate (`here`) or at a later one after a full Newton step
(`later`).  Mirrors the control flow of `newtonLoop`. -/
inductive HitsVegaFallback (S K T r : ℝ) (option_type : OptionType)
    (price tol : ℝ) : ℕ → ℝ → Prop
  | here {n : ℕ} {sigma_guess f_val vega_val : ℝ}
      (hf : _price_function S K T r sigma_guess option_type price = .ok f_val)
      (hftol : ¬ |f_val| < tol)
      (hv : _vega_function S K T r sigma_guess = .ok vega_val)
      (hvsmall : |vega_val| < 1e-12) :
      HitsVegaFallback S K T r option_type price tol (n + 1) sigma_guess
  | later {n : ℕ} {sigma_guess f_val vega_val : ℝ}
      (hf : _price_function S K T r sigma_guess option_type price = .ok f_val)
      (hftol : ¬ |f_val| < tol)
      (hv : _vega_function S K T r sigma_guess = .ok vega_val)
      (hvbig : ¬ |vega_val| < 1e-12)
      (hstep : ¬ |(if sigma_guess - f_val / vega_val ≤ 0 then sigma_guess / 2
                   else sigma_guess - f_val / vega_val) - sigma_guess| < tol)
      (htail : HitsVegaFallback S K T r option_type price tol n
        (if sigma_guess - f_val / vega_val ≤ 0 then sigma_guess / 2
         else sigma_guess - f_val / vega_val)) :
      HitsVegaFallback S K T r option_type price tol (n + 1) sigma_guess

/-- Value computed by `d1` on its main branch (`T > 0`, nonzero volatility):
`(log(S/K) + (r + 0.5·σ²)·T) / (σ·√T)`. -/
def d1v (S K r sigma T : ℝ) : ℝ :=
  (Real.log (S / K) + (r + 0.5 * sigma * sigma) * T) / (sigma * Real.sqrt T)

/-- Value computed by `d2` for `T ≥ 0`: `d1 - σ·√T`. -/
def d2v (S K r sigma T : ℝ) : ℝ := d1v S K r sigma T - sigma * Real.sqrt T

/-- Value of `price_call` on its main branch. -/
def bsCall (S K T r sigma : ℝ) : ℝ :=
  S * normal_cdf (d1v S K r sigma T)
    - K * Real.exp (-r * T) * normal_cdf (d2v S K r sigma T)

/-- Value of `price_put` on its main branch. -/
def bsPut (S K T r sigma : ℝ) : ℝ :=
  K * Real.exp (-r * T) * normal_cdf (-(d2v S K r sigma T))
    - S * normal_cdf (-(d1v S K r sigma T))

end QuantPricer

namespace QuantPricer

open MeasureTheory Set

/-! Basic properties of the error function and the normal CDF. -/

theorem integrable_gauss : Integrable (fun t : ℝ => Real.exp (-t ^ 2)) := by
  have h := integrable_exp_neg_mul_sq (b := (1:ℝ)) one_pos
  simpa using h

theorem gauss_Ioi_zero : ∫ t in Ioi (0:ℝ), Real.exp (-t ^ 2) = Real.sqrt Real.pi / 2 := by
  have h := integral_gaussian_Ioi 1
  simpa using h

theorem gauss_tail_nonneg (y : ℝ) : 0 ≤ ∫ t in Ioi y, Real.exp (-t ^ 2) :=
  setIntegral_nonneg measurableSet_Ioi fun _ _ => (Real.exp_pos _).le

theorem gauss_interval_nonneg {y : ℝ} (hy : 0 ≤ y) :
    0 ≤ ∫ t in (0:ℝ)..y, Real.exp (-t ^ 2) :=
  intervalIntegral.integral_nonneg hy fun _ _ => (Real.exp_pos _).le

theorem gauss_split {y : ℝ} (hy : 0 ≤ y) :
    (∫ t in (0:ℝ)..y, Real.exp (-t ^ 2)) + ∫ t in Ioi y, Real.exp (-t ^ 2)
      = Real.sqrt Real.pi / 2 := by
  rw [intervalIntegral.integral_of_le hy, ← gauss_Ioi_zero,
    ← setIntegral_union (Set.Ioc_disjoint_Ioi le_rfl) measurableSet_Ioi
      integrable_gauss.integrableOn integrable_gauss.integrableOn,
    Set.Ioc_union_Ioi_eq_Ioi hy]

theorem erf_neg_eq (x : ℝ) : erf (-x) = - erf x := by
  unfold erf
  have h1 : (∫ t in (0:ℝ)..(-x), Real.exp (-(-t) ^ 2))
      = ∫ t in (-(-x))..(-(0:ℝ)), Real.exp (-t ^ 2) :=
    intervalIntegral.integral_comp_neg fun t => Real.exp (-t ^ 2)
  simp only [neg_sq, neg_neg, neg_zero] at h1
  rw [h1, intervalIntegral.integral_symm]
  ring

theorem erf_nonneg_of_nonneg {y : ℝ} (hy : 0 ≤ y) : 0 ≤ erf y :=
  mul_nonneg (by positivity) (gauss_interval_nonneg hy)

theorem one_sub_erf {y : ℝ} (hy : 0 ≤ y) :
    1 - erf y = 2 / Real.sqrt Real.pi * ∫ t in Ioi y, Real.exp (-t ^ 2) := by
  have hsplit := gauss_split hy
  have hπ : (0:ℝ) < Real.sqrt Real.pi := Real.sqrt_pos.mpr Real.pi_pos
  unfold erf
  have hI : (∫ t in (0:ℝ)..y, Real.exp (-t ^ 2))
      = Real.sqrt Real.pi / 2 - ∫ t in Ioi y, Real.exp (-t ^ 2) := by linarith
  rw [hI]
  field_simp
  ring

theorem erf_le_one (y : ℝ) : erf y ≤ 1 := by
  rcases le_or_lt 0 y with hy | hy
  · have h := one_sub_erf hy
    have h2 : 0 ≤ 2 / Real.sqrt Real.pi * ∫ t in Ioi y, Real.exp (-t ^ 2) :=
      mul_nonneg (by positivity) (gauss_tail_nonneg y)
    linarith
  · have h := erf_nonneg_of_nonneg (neg_nonneg.mpr hy.le)
    rw [erf_neg_eq] at h
    linarith

theorem neg_one_le_erf (y : ℝ) : -1 ≤ erf y := by
  have h := erf_le_one (-y)
  rw [erf_neg_eq] at h
  linarith

theorem normal_cdf_nonneg (x : ℝ) : 0 ≤ normal_cdf x := by
  have h := neg_one_le_erf (x / SQRT_2)
  unfold normal_cdf
  linarith

theorem normal_cdf_le_one (x : ℝ) : normal_cdf x ≤ 1 := by
  have h := erf_le_one (x / SQRT_2)
  unfold normal_cdf
  linarith

theorem normal_cdf_add_neg (x : ℝ) : normal_cdf x + normal_cdf (-x) = 1 := by
  unfold normal_cdf
  rw [neg_div, erf_neg_eq]
  ring

theorem gauss_tail_le {y : ℝ} (hy : 0 < y) :
    (∫ t in Ioi y, Real.exp (-t ^ 2)) ≤ Real.exp (-y ^ 2) / (2 * y) := by
  have hint : IntegrableOn (fun t : ℝ => t * Real.exp (-t ^ 2)) (Ioi y) := by
    have h := integrable_mul_exp_neg_mul_sq (b := (1:ℝ)) one_pos
    simpa using h.integrableOn
  have hIoi : ∫ t in Ioi y, t * Real.exp (-t ^ 2) = Real.exp (-y ^ 2) / 2 := by
    have hd : ∀ t ∈ Ioi y, HasDerivAt (fun u : ℝ => -Real.exp (-u ^ 2) / 2)
        (t * Real.exp (-t ^ 2)) t := by
      intro t _
      have h1 : HasDerivAt (fun u : ℝ => -u ^ 2) (-(2 * t)) t := by
        simpa using (hasDerivAt_pow 2 t).neg
      have h3 := (h1.exp.neg).div_const 2
      convert h3 using 1
      ring
    have hcont : ContinuousWithinAt (fun u : ℝ => -Real.exp (-u ^ 2) / 2) (Ici y) y := by
      apply Continuous.continuousWithinAt
      continuity
    have htends : Filter.Tendsto (fun u : ℝ => -Real.exp (-u ^ 2) / 2)
        Filter.atTop (nhds 0) := by
      have h4 : Filter.Tendsto (fun u : ℝ => -u ^ 2) Filter.atTop Filter.atBot := by
        have h5 : Filter.Tendsto (fun u : ℝ => u ^ 2) Filter.atTop Filter.atTop :=
          Filter.tendsto_pow_atTop (by norm_num)
        exact Filter.tendsto_neg_atBot_iff.mpr h5
      have h6 := (Real.tendsto_exp_atBot.comp h4).neg.div_const 2
      simpa using h6
    have h7 := integral_Ioi_of_hasDerivAt_of_tendsto hcont hd hint htends
    rw [h7]
    ring
  have hmono : (∫ t in Ioi y, Real.exp (-t ^ 2))
      ≤ ∫ t in Ioi y, (t / y) * Real.exp (-t ^ 2) := by
    have hg : IntegrableOn (fun t : ℝ => (t / y) * Real.exp (-t ^ 2)) (Ioi y) := by
      have heq : (fun t : ℝ => (t / y) * Real.exp (-t ^ 2))
          = fun t : ℝ => (1 / y) * (t * Real.exp (-t ^ 2)) := by
        funext t
        ring
      rw [heq]
      exact hint.const_mul (1 / y)
    refine setIntegral_mono_on integrable_gauss.integrableOn hg measurableSet_Ioi ?_
    intro t ht
    have h1 : 1 ≤ t / y := (one_le_div hy).mpr (le_of_lt ht)
    nlinarith [Real.exp_pos (-t ^ 2), Real.exp_pos (-y ^ 2)]
  have heq2 : (∫ t in Ioi y, (t / y) * Real.exp (-t ^ 2))
      = (1 / y) * ∫ t in Ioi y, t * Real.exp (-t ^ 2) := by
    have heq : (fun t : ℝ => (t / y) * Real.exp (-t ^ 2))
        = fun t : ℝ => (1 / y) * (t * Real.exp (-t ^ 2)) := by
      funext t
      ring
    rw [heq, MeasureTheory.integral_mul_left]
  rw [heq2, hIoi] at hmono
  calc (∫ t in Ioi y, Real.exp (-t ^ 2)) ≤ 1 / y * (Real.exp (-y ^ 2) / 2) := hmono
    _ = Real.exp (-y ^ 2) / (2 * y) := by
        field_simp
        ring

theorem one_sub_normal_cdf_le {x : ℝ} (hx : 1 ≤ x) :
    1 - normal_cdf x ≤ Real.exp (-x ^ 2 / 2) := by
  have h2 : (0:ℝ) < Real.sqrt 2 := Real.sqrt_pos.mpr (by norm_num)
  have hy : 0 < x / SQRT_2 := div_pos (lt_of_lt_of_le one_pos hx) h2
  have hsq : (x / SQRT_2) ^ 2 = x ^ 2 / 2 := by
    rw [div_pow, SQRT_2, Real.sq_sqrt (by norm_num : (0:ℝ) ≤ 2)]
  have htail := gauss_tail_le hy
  rw [hsq, ← neg_div] at htail
  have h1s := one_sub_erf hy.le
  have hπ : (1:ℝ) ≤ Real.sqrt Real.pi := by
    rw [show (1:ℝ) = Real.sqrt 1 by simp]
    exact Real.sqrt_le_sqrt (by linarith [Real.pi_gt_three])
  have hcdf : 1 - normal_cdf x = (1 - erf (x / SQRT_2)) / 2 := by
    unfold normal_cdf
    ring
  have hs2le : Real.sqrt 2 ≤ 2 := by
    have h4 : Real.sqrt 4 = 2 := by
      rw [show (4:ℝ) = 2 ^ 2 by norm_num, Real.sqrt_sq (by norm_num : (0:ℝ) ≤ 2)]
    calc Real.sqrt 2 ≤ Real.sqrt 4 := Real.sqrt_le_sqrt (by norm_num)
      _ = 2 := h4
  have hyx : 1 ≤ 2 * (x / SQRT_2) := by
    have hdd : (2 * x) / 2 ≤ (2 * x) / Real.sqrt 2 :=
      div_le_div_of_nonneg_left (by linarith) h2 hs2le
    have heq : 2 * (x / SQRT_2) = (2 * x) / Real.sqrt 2 := by
      rw [SQRT_2]
      ring
    rw [heq]
    have : (2 * x) / 2 = x := by ring
    linarith
  have hexp := Real.exp_pos (-x ^ 2 / 2)
  have htail0 := gauss_tail_nonneg (x / SQRT_2)
  rw [hcdf, h1s]
  calc 2 / Real.sqrt Real.pi * (∫ t in Ioi (x / SQRT_2), Real.exp (-t ^ 2)) / 2
      = (∫ t in Ioi (x / SQRT_2), Real.exp (-t ^ 2)) / Real.sqrt Real.pi := by ring
    _ ≤ ∫ t in Ioi (x / SQRT_2), Real.exp (-t ^ 2) := div_le_self htail0 hπ
    _ ≤ Real.exp (-x ^ 2 / 2) / (2 * (x / SQRT_2)) := htail
    _ ≤ Real.exp (-x ^ 2 / 2) := div_le_self hexp.le hyx

theorem exp_neg_760_small : Real.exp (-(760:ℝ)) ≤ 1e-30 := by
  have h1 : (41:ℝ) ≤ Real.exp 40 := by
    have h := Real.add_one_le_exp (40:ℝ)
    linarith
  have h2 : Real.exp (760:ℝ) = Real.exp 40 ^ 19 := by
    rw [← Real.exp_nat_mul]
    norm_num
  have h3 : (41:ℝ) ^ 19 ≤ Real.exp 40 ^ 19 := pow_le_pow_left (by norm_num) h1 19
  have h4 : (1e30:ℝ) ≤ (41:ℝ) ^ 19 := by norm_num
  have h5 : (1e30:ℝ) ≤ Real.exp 760 := by
    rw [h2]
    linarith
  rw [Real.exp_neg]
  calc (Real.exp 760)⁻¹ ≤ (1e30:ℝ)⁻¹ := inv_le_inv_of_le (by norm_num) h5
    _ = 1e-30 := by norm_num

theorem normal_cdf_near_one {x : ℝ} (hx : 39 ≤ x) : 1 - 1e-30 ≤ normal_cdf x := by
  have h1 : 1 - normal_cdf x ≤ Real.exp (-x ^ 2 / 2) := one_sub_normal_cdf_le (by linarith)
  have h2 : -x ^ 2 / 2 ≤ -760 := by nlinarith
  have h3 : Real.exp (-x ^ 2 / 2) ≤ Real.exp (-760) := Real.exp_le_exp.mpr h2
  have h4 := exp_neg_760_small
  linarith

/-! Evaluation lemmas characterizing the branches of the embedded source
functions. -/

theorem validate_ok {S K r sigma T : ℝ} (hS : 0 < S) (hK : 0 < K)
    (hσ : 0 ≤ sigma) (hT : 0 ≤ T) : _validate_inputs S K r sigma T = .ok () := by
  unfold _validate_inputs
  rw [if_neg (by linarith), if_neg (by linarith), if_neg (by linarith), if_neg (by linarith)]

theorem d1_src_main {S K r sigma T : ℝ} (hS : 0 < S) (hK : 0 < K) (hσ : sigma ≠ 0)
    (hT : 0 < T) : d1 S K r sigma T = .ok (.val (d1v S K r sigma T)) := by
  have hKne : K ≠ 0 := ne_of_gt hK
  have h1 : ¬ T ≤ 0 := not_le.mpr hT
  have h2 : ¬ S / K ≤ 0 := not_le.mpr (div_pos hS hK)
  have h3 : sigma * Real.sqrt T ≠ 0 := mul_ne_zero hσ (ne_of_gt (Real.sqrt_pos.mpr hT))
  simp [d1, pydiv, pylog, d1v, h1, h2, h3, hKne]

theorem d1Fin_main {S K r sigma T : ℝ} (hS : 0 < S) (hK : 0 < K) (hσ : sigma ≠ 0)
    (hT : 0 < T) : d1Fin S K r sigma T = .ok (d1v S K r sigma T) := by
  simp [d1Fin, d1_src_main hS hK hσ hT]

theorem d2_src_eval {d1_value sigma T : ℝ} (hT : 0 ≤ T) :
    d2 d1_value sigma T = .ok (d1_value - sigma * Real.sqrt T) := by
  simp [d2, pysqrt, not_lt.mpr hT]

theorem price_call_main {S K T r sigma : ℝ} (hS : 0 < S) (hK : 0 < K)
    (hσ : 0 < sigma) (hT : 0 < T) :
    price_call S K T r sigma = .ok (bsCall S K T r sigma) := by
  simp [price_call, validate_ok hS hK hσ.le hT.le, hT.ne', hσ.ne',
    d1Fin_main hS hK hσ.ne' hT, d2_src_eval hT.le, bsCall, d2v]

theorem price_put_main {S K T r sigma : ℝ} (hS : 0 < S) (hK : 0 < K)
    (hσ : 0 < sigma) (hT : 0 < T) :
    price_put S K T r sigma = .ok (bsPut S K T r sigma) := by
  simp [price_put, validate_ok hS hK hσ.le hT.le, hT.ne', hσ.ne',
    d1Fin_main hS hK hσ.ne' hT, d2_src_eval hT.le, bsPut, d2v]

theorem price_call_T0 {S K r sigma : ℝ} (hS : 0 < S) (hK : 0 < K) (hσ : 0 ≤ sigma) :
    price_call S K 0 r sigma = .ok (max 0 (S - K)) := by
  simp [price_call, validate_ok hS hK hσ le_rfl]

theorem price_put_T0 {S K r sigma : ℝ} (hS : 0 < S) (hK : 0 < K) (hσ : 0 ≤ sigma) :
    price_put S K 0 r sigma = .ok (max 0 (K - S)) := by
  simp [price_put, validate_ok hS hK hσ le_rfl]

theorem price_call_sigma0 {S K T r : ℝ} (hS : 0 < S) (hK : 0 < K) (hT : 0 < T) :
    price_call S K T r 0 = .ok (max 0 (S - K * Real.exp (-r * T))) := by
  simp [price_call, validate_ok hS hK le_rfl hT.le, hT.ne']

theorem price_put_sigma0 {S K T r : ℝ} (hS : 0 < S) (hK : 0 < K) (hT : 0 < T) :
    price_put S K T r 0 = .ok (max 0 (K * Real.exp (-r * T) - S)) := by
  simp [price_put, validate_ok hS hK le_rfl hT.le, hT.ne']

theorem max_sub_max (a b : ℝ) : max 0 (a - b) - max 0 (b - a) = a - b := by
  rcases le_total a b with h | h
  · rw [max_eq_left (by linarith), max_eq_right (by linarith)]
    ring
  · rw [max_eq_right (by linarith), max_eq_left (by linarith)]
    ring

/-- C1: for every S>0, K>0, T≥0, sigma≥0 and finite r, `price_call` and
`price_put` both succeed and their difference equals `S - K·e^(-rT)` within
1e-6 (in fact exactly), including the degenerate branches T=0 and sigma=0. -/
theorem put_call_parity (S K T r sigma : ℝ) (hS : 0 < S) (hK : 0 < K)
    (hT : 0 ≤ T) (hσ : 0 ≤ sigma) :
    ∃ c p, price_call S K T r sigma = .ok c ∧ price_put S K T r sigma = .ok p ∧
      |c - p - (S - K * Real.exp (-r * T))| ≤ 1e-6 := by
  rcases eq_or_lt_of_le hT with hT0 | hTpos
  · subst hT0
    refine ⟨max 0 (S - K), max 0 (K - S), price_call_T0 hS hK hσ, price_put_T0 hS hK hσ, ?_⟩
    have e2 : Real.exp (-r * (0:ℝ)) = 1 := by norm_num
    rw [e2]
    have e1 := max_sub_max S K
    have e0 : |max (0:ℝ) (S - K) - max 0 (K - S) - (S - K * 1)| = 0 := by
      rw [abs_eq_zero]
      linarith
    rw [e0]
    norm_num
  · rcases eq_or_lt_of_le hσ with hσ0 | hσpos
    · subst hσ0
      refine ⟨max 0 (S - K * Real.exp (-r * T)), max 0 (K * Real.exp (-r * T) - S),
        price_call_sigma0 hS hK hTpos, price_put_sigma0 hS hK hTpos, ?_⟩
      have e1 := max_sub_max S (K * Real.exp (-r * T))
      have e0 : |max (0:ℝ) (S - K * Real.exp (-r * T))
          - max 0 (K * Real.exp (-r * T) - S) - (S - K * Real.exp (-r * T))| = 0 := by
        rw [abs_eq_zero]
        linarith
      rw [e0]
      norm_num
    · refine ⟨_, _, price_call_main hS hK hσpos hTpos, price_put_main hS hK hσpos hTpos, ?_⟩
      have h1 := normal_cdf_add_neg (d1v S K r sigma T)
      have h2 := normal_cdf_add_neg (d2v S K r sigma T)
      have e0 : bsCall S K T r sigma - bsPut S K T r sigma
          - (S - K * Real.exp (-r * T)) = 0 := by
        unfold bsCall bsPut
        linear_combination S * h1 - K * Real.exp (-r * T) * h2
      rw [e0]
      norm_num

/-- Witness for `put_call_parity` at S=100, K=100, T=1, r=0, sigma=1/5. -/
theorem put_call_parity_witness :
    (0:ℝ) < 100 ∧ (0:ℝ) ≤ 1 ∧ (0:ℝ) ≤ 1/5 ∧
      ∃ c p, price_call 100 100 1 0 (1/5) = .ok c ∧
        price_put 100 100 1 0 (1/5) = .ok p ∧
        |c - p - (100 - 100 * Real.exp (-0 * 1))| ≤ 1e-6 :=
  ⟨by norm_num, by norm_num, by norm_num,
    put_call_parity 100 100 1 0 (1/5) (by norm_num) (by norm_num) (by norm_num) (by norm_num)⟩

/-- C4: for valid inputs, at T=0 `price_call`/`price_put` return exactly the
intrinsic values `max(0,S-K)` / `max(0,K-S)`, and at sigma=0 with T>0 they
return exactly the discounted-forward values `max(0,S-K·e^(-rT))` /
`max(0,K·e^(-rT)-S)`; in the embedding these branches return before any
`d1`/`d2` evaluation, mirroring the source's control flow. -/
theorem degenerate_shortcuts (S K T r sigma : ℝ) (hS : 0 < S) (hK : 0 < K)
    (hσ : 0 ≤ sigma) (hT : 0 < T) :
    (price_call S K 0 r sigma = .ok (max 0 (S - K)) ∧
      price_put S K 0 r sigma = .ok (max 0 (K - S))) ∧
    (price_call S K T r 0 = .ok (max 0 (S - K * Real.exp (-r * T))) ∧
      price_put S K T r 0 = .ok (max 0 (K * Real.exp (-r * T) - S))) :=
  ⟨⟨price_call_T0 hS hK hσ, price_put_T0 hS hK hσ⟩,
    ⟨price_call_sigma0 hS hK hT, price_put_sigma0 hS hK hT⟩⟩

/-- Witness for `degenerate_shortcuts` at S=2, K=1, T=1, r=0, sigma=1/2. -/
theorem degenerate_shortcuts_witness :
    (0:ℝ) < 2 ∧ (0:ℝ) < 1 ∧ (0:ℝ) ≤ 1/2 ∧ (0:ℝ) < 1 ∧
      ((price_call 2 1 0 0 (1/2) = .ok (max 0 (2 - 1)) ∧
        price_put 2 1 0 0 (1/2) = .ok (max 0 (1 - 2))) ∧
      (price_call 2 1 1 0 0 = .ok (max 0 (2 - 1 * Real.exp (-0 * 1))) ∧
        price_put 2 1 1 0 0 = .ok (max 0 (1 * Real.exp (-0 * 1) - 2)))) :=
  ⟨by norm_num, by norm_num, by norm_num, by norm_num,
    degenerate_shortcuts 2 1 1 0 (1/2) (by norm_num) (by norm_num) (by norm_num) (by norm_num)⟩

/-- Counterexample to C5: at S=100, K=100, T=1, r=0, sigma=0 — exact
forward-at-the-money in the sigma≤0 branch — both deltas are 0, so the put
delta does not equal the call delta minus one. -/
theorem delta_parity_cex :
    delta 100 100 1 0 0 .call = .ok 0 ∧ delta 100 100 1 0 0 .put = .ok 0 ∧
      (0:ℝ) ≠ 0 - 1 := by
  refine ⟨?_, ?_, by norm_num⟩
  · norm_num [delta]
  · norm_num [delta]

/-- C5 (amended): for every S>0, K>0 and all T, r, sigma, both deltas
succeed, the call delta lies in [0,1], the put delta lies in [-1,0], and
`put = call - 1` holds except in the single degenerate configuration
`T > 0 ∧ sigma ≤ 0 ∧ S = K·e^(-rT)`, where both deltas are 0. -/
theorem delta_invariants (S K T r sigma : ℝ) (hS : 0 < S) (hK : 0 < K) :
    ∃ dc dp, delta S K T r sigma .call = .ok dc ∧ delta S K T r sigma .put = .ok dp ∧
      0 ≤ dc ∧ dc ≤ 1 ∧ -1 ≤ dp ∧ dp ≤ 0 ∧
      ((T ≤ 0 ∨ 0 < sigma ∨ S ≠ K * Real.exp (-r * T)) → dp = dc - 1) := by
  by_cases hT : T ≤ 0
  · rcases lt_trichotomy S K with h | h | h
    · exact ⟨0, -1, by simp [delta, hT, not_lt.mpr h.le, ne_of_lt h],
        by simp [delta, hT, h], by norm_num, by norm_num, by norm_num, by norm_num,
        fun _ => by norm_num⟩
    · exact ⟨0.5, -0.5, by simp [delta, hT, h], by simp [delta, hT, h],
        by norm_num, by norm_num, by norm_num, by norm_num, fun _ => by norm_num⟩
    · exact ⟨1, 0, by simp [delta, hT, h], by simp [delta, hT, not_lt.mpr h.le, (ne_of_lt h).symm],
        by norm_num, by norm_num, by norm_num, by norm_num, fun _ => by norm_num⟩
  · by_cases hσ : sigma ≤ 0
    · rcases lt_trichotomy S (K * Real.exp (-r * T)) with h | h | h
      · have h' : S < K * Real.exp (-(r * T)) := by rwa [neg_mul] at h
        exact ⟨0, -1, by simp [delta, hT, hσ, not_lt.mpr h'.le],
          by simp [delta, hT, hσ, h'], by norm_num, by norm_num, by norm_num, by norm_num,
          fun _ => by norm_num⟩
      · refine ⟨0, 0, by simp [delta, hT, hσ, h], by simp [delta, hT, hσ, h],
          le_rfl, by norm_num, by norm_num, le_rfl, fun hdisj => ?_⟩
        rcases hdisj with h1 | h1 | h1
        · exact absurd h1 hT
        · exact absurd h1 (not_lt.mpr hσ)
        · exact absurd h h1
      · have h' : K * Real.exp (-(r * T)) < S := by rwa [neg_mul] at h
        exact ⟨1, 0, by simp [delta, hT, hσ, h'],
          by simp [delta, hT, hσ, not_lt.mpr h'.le], by norm_num, by norm_num,
          by norm_num, by norm_num, fun _ => by norm_num⟩
    · push_neg at hT hσ
      refine ⟨normal_cdf (d1v S K r sigma T), normal_cdf (d1v S K r sigma T) - 1,
        ?_, ?_, normal_cdf_nonneg _, normal_cdf_le_one _, ?_, ?_, fun _ => rfl⟩
      · simp [delta, not_le.mpr hT, not_le.mpr hσ, d1Fin_main hS hK hσ.ne' hT]
      · simp [delta, not_le.mpr hT, not_le.mpr hσ, d1Fin_main hS hK hσ.ne' hT]
      · have := normal_cdf_nonneg (d1v S K r sigma T)
        linarith
      · have := normal_cdf_le_one (d1v S K r sigma T)
        linarith

/-- Witness for `delta_invariants` at S=100, K=90, T=1, r=0, sigma=1/5. -/
theorem delta_invariants_witness :
    (0:ℝ) < 100 ∧ (0:ℝ) < 90 ∧
      ∃ dc dp, delta 100 90 1 0 (1/5) .call = .ok dc ∧
        delta 100 90 1 0 (1/5) .put = .ok dp ∧
        0 ≤ dc ∧ dc ≤ 1 ∧ -1 ≤ dp ∧ dp ≤ 0 ∧
        (((1:ℝ) ≤ 0 ∨ (0:ℝ) < 1/5 ∨ (100:ℝ) ≠ 90 * Real.exp (-0 * 1)) → dp = dc - 1) :=
  ⟨by norm_num, by norm_num, delta_invariants 100 90 1 0 (1/5) (by norm_num) (by norm_num)⟩

/-- Counterexample to C9: `delta` performs no input validation — with a
negative spot and T=0 it silently returns the numeric value 0 instead of
failing with a DomainError. -/
theorem greeks_no_validation_cex :
    delta (-100) 100 0 (5/100) (1/5) .call = .ok 0 ∧ (-100:ℝ) ≤ 0 := by
  constructor
  · norm_num [delta]
  · norm_num

/-- C9 (amended): `price_call` and `price_put` detect non-positive S or K
synchronously in `_validate_inputs`, failing with the `ValueError` naming the
violated field, before any formula evaluation. -/
theorem validation_errors (S K T r sigma : ℝ) :
    (S ≤ 0 →
      price_call S K T r sigma = .error (.valueError "Stock price must be positive") ∧
      price_put S K T r sigma = .error (.valueError "Stock price must be positive")) ∧
    (0 < S → K ≤ 0 →
      price_call S K T r sigma = .error (.valueError "Strike price must be positive") ∧
      price_put S K T r sigma = .error (.valueError "Strike price must be positive")) := by
  constructor
  · intro hS
    constructor
    · simp [price_call, _validate_inputs, hS]
    · simp [price_put, _validate_inputs, hS]
  · intro hS hK
    constructor
    · simp [price_call, _validate_inputs, hK, not_le.mpr hS]
    · simp [price_put, _validate_inputs, hK, not_le.mpr hS]

/-- Witness for `validation_errors` at S=-1 (and at K=-1 with S=1). -/
theorem validation_errors_witness :
    ((-1:ℝ) ≤ 0 ∧
      price_call (-1) 1 1 0 1 = .error (.valueError "Stock price must be positive") ∧
      price_put (-1) 1 1 0 1 = .error (.valueError "Stock price must be positive")) ∧
    ((0:ℝ) < 1 ∧ (-1:ℝ) ≤ 0 ∧
      price_call 1 (-1) 1 0 1 = .error (.valueError "Strike price must be positive") ∧
      price_put 1 (-1) 1 0 1 = .error (.valueError "Strike price must be positive")) :=
  ⟨⟨by norm_num, (validation_errors (-1) 1 1 0 1).1 (by norm_num)⟩,
    ⟨by norm_num, by norm_num, (validation_errors 1 (-1) 1 0 1).2 (by norm_num) (by norm_num)⟩⟩

/-- Counterexample to C3: the `src/src` tree's `d1` performs no volatility
check — at T=1>0 and sigma=-1/5≤0 it returns the finite value -7/20 instead
of failing with a DomainError. -/
theorem d1_sigma_cex :
    d1 100 100 (5/100) (-(1/5)) 1 = .ok (.val (-(7/20))) ∧ (0:ℝ) < 1 ∧ (-(1/5):ℝ) ≤ 0 := by
  refine ⟨?_, by norm_num, by norm_num⟩
  rw [d1_src_main (by norm_num) (by norm_num) (by norm_num) (by norm_num)]
  norm_num [d1v, Real.sqrt_one, Real.log_one]

/-- C3 (amended): for T≤0 both `d1` implementations return +∞ when S≥K and
-∞ otherwise.  For T>0 and sigma≤0 only the backend `d1` fails with the
DomainError naming the volatility; the `src/src` `d1` has no such check: for
sigma<0 (with S,K>0) it returns a finite value, and for sigma=0 it raises
`ZeroDivisionError`. -/
theorem d1_degenerate (S K r sigma T : ℝ) :
    (T ≤ 0 →
      d1 S K r sigma T = .ok (if S ≥ K then .inf else .negInf) ∧
      Backend.d1 S K r sigma T = .ok (if S ≥ K then .inf else .negInf)) ∧
    (0 < T → sigma ≤ 0 →
      Backend.d1 S K r sigma T
        = .error (.valueError "Volatility must be positive for d1 calculation")) ∧
    (0 < T → sigma < 0 → 0 < S → 0 < K →
      d1 S K r sigma T = .ok (.val (d1v S K r sigma T))) ∧
    (0 < T → 0 < S → 0 < K →
      d1 S K r 0 T = .error .zeroDivisionError) := by
  refine ⟨?_, ?_, ?_, ?_⟩
  · intro hT
    constructor
    · simp [d1, hT]
    · simp [Backend.d1, hT]
  · intro hT hσ
    simp [Backend.d1, not_le.mpr hT, hσ]
  · intro hT hσ hS hK
    exact d1_src_main hS hK (ne_of_lt hσ) hT
  · intro hT hS hK
    have h2 : ¬ S / K ≤ 0 := not_le.mpr (div_pos hS hK)
    simp [d1, pydiv, pylog, not_le.mpr hT, hK.ne', h2]

/-- Witness for `d1_degenerate`, instantiating each clause. -/
theorem d1_degenerate_witness :
    ((0:ℝ) ≤ 0 ∧
      d1 2 1 0 1 0 = .ok (if (2:ℝ) ≥ 1 then .inf else .negInf) ∧
      Backend.d1 2 1 0 1 0 = .ok (if (2:ℝ) ≥ 1 then .inf else .negInf)) ∧
    Backend.d1 1 1 0 (-(1/5)) 1
      = .error (.valueError "Volatility must be positive for d1 calculation") ∧
    d1 1 1 0 (-(1/5)) 1 = .ok (.val (d1v 1 1 0 (-(1/5)) 1)) ∧
    d1 1 1 0 0 1 = .error .zeroDivisionError :=
  ⟨⟨le_rfl, (d1_degenerate 2 1 0 1 0).1 le_rfl⟩,
    (d1_degenerate 1 1 0 (-(1/5)) 1).2.1 (by norm_num) (by norm_num),
    (d1_degenerate 1 1 0 (-(1/5)) 1).2.2.1 (by norm_num) (by norm_num) (by norm_num) (by norm_num),
    (d1_degenerate 1 1 0 0 1).2.2.2 (by norm_num) (by norm_num) (by norm_num)⟩

/-- Counterexample to C8: the `src/src` tree's `d2` has no T≤0 special case —
at T=0 with a positive `d1_value` it returns the finite value `d1_value`
itself (here 1) instead of +∞. -/
theorem d2_T0_cex : d2 1 (1/5) 0 = .ok 1 ∧ (0:ℝ) ≤ 0 ∧ (0:ℝ) < 1 := by
  refine ⟨?_, le_rfl, one_pos⟩
  rw [d2_src_eval le_rfl]
  norm_num [Real.sqrt_zero]

/-- C8 (amended): the claimed contract is that of the backend `d2`, and only
for positive volatility: for T≤0 it returns +∞ if `d1_value>0` else -∞, for
T>0 and sigma>0 it returns `d1_value - σ·√T`, and for T>0, sigma≤0 it fails.
The `src/src` `d2` instead computes `d1_value - σ·√T` for every T≥0
(including T=0) and fails on T<0. -/
theorem d2_degenerate (d1_value sigma T : ℝ) :
    (T ≤ 0 → Backend.d2 d1_value sigma T
      = .ok (if d1_value > 0 then .inf else .negInf)) ∧
    (0 < T → 0 < sigma → Backend.d2 d1_value sigma T
      = .ok (.val (d1_value - sigma * Real.sqrt T))) ∧
    (0 < T → sigma ≤ 0 → Backend.d2 d1_value sigma T
      = .error (.valueError "Volatility must be positive for d2 calculation")) ∧
    (0 ≤ T → d2 d1_value sigma T = .ok (d1_value - sigma * Real.sqrt T)) ∧
    (T < 0 → d2 d1_value sigma T = .error (.valueError "math domain error")) := by
  refine ⟨?_, ?_, ?_, ?_, ?_⟩
  · intro hT
    simp [Backend.d2, hT]
  · intro hT hσ
    simp [Backend.d2, not_le.mpr hT, not_le.mpr hσ, Backend.safe_sqrt, not_lt.mpr hT.le]
  · intro hT hσ
    simp [Backend.d2, not_le.mpr hT, hσ]
  · exact fun hT => d2_src_eval hT
  · intro hT
    simp [d2, pysqrt, hT]

/-- Witness for `d2_degenerate`, instantiating each clause. -/
theorem d2_degenerate_witness :
    Backend.d2 1 (1/5) 0 = .ok (if (1:ℝ) > 0 then .inf else .negInf) ∧
    Backend.d2 1 (1/5) 1 = .ok (.val (1 - 1/5 * Real.sqrt 1)) ∧
    Backend.d2 1 (-(1/5)) 1
      = .error (.valueError "Volatility must be positive for d2 calculation") ∧
    d2 1 (1/5) 1 = .ok (1 - 1/5 * Real.sqrt 1) ∧
    d2 1 (1/5) (-1) = .error (.valueError "math domain error") :=
  ⟨(d2_degenerate 1 (1/5) 0).1 le_rfl,
    (d2_degenerate 1 (1/5) 1).2.1 one_pos (by norm_num),
    (d2_degenerate 1 (-(1/5)) 1).2.2.1 one_pos (by norm_num),
    (d2_degenerate 1 (1/5) 1).2.2.2.1 zero_le_one,
    (d2_degenerate 1 (1/5) (-1)).2.2.2.2 (by norm_num)⟩

/-- Counterexample to C7: the `src/src` tree's `normal_pdf` has no clamping —
at x=38 (|x| beyond the 37 threshold) it returns the strictly positive value
`exp(-722)/√(2π)`, not exactly 0. -/
theorem normal_pdf_no_clamp_cex : normal_pdf 38 ≠ 0 ∧ |(38:ℝ)| > 37 := by
  constructor
  · unfold normal_pdf SQRT2PI
    positivity
  · norm_num

/-- C7 (amended): only the backend `normal_pdf` clamps: it returns exactly 0
for |x| > 37 and the analytic value `exp(-x²/2)/√(2π)` otherwise (the
MIN_EXP/MAX_EXP guards never fire for |x| ≤ 37), and is everywhere
non-negative.  The overflow/underflow clause concerns IEEE-754 evaluation and
is outside this real-valued model. -/
theorem backend_pdf_clamp (x : ℝ) :
    (|x| > 37 → Backend.normal_pdf x = 0) ∧
    (|x| ≤ 37 → Backend.normal_pdf x = Real.exp (-0.5 * x * x) / SQRT2PI) ∧
    0 ≤ Backend.normal_pdf x := by
  refine ⟨?_, ?_, ?_⟩
  · intro h
    simp [Backend.normal_pdf, h]
  · intro h
    have hb := abs_le.mp h
    have hx2 : x * x ≤ 1369 := by nlinarith [hb.1, hb.2]
    have hx0 : 0 ≤ x * x := mul_self_nonneg x
    unfold Backend.normal_pdf
    rw [if_neg (not_lt.mpr h), if_neg (by nlinarith), if_neg (by nlinarith)]
  · unfold Backend.normal_pdf SQRT2PI
    split_ifs <;> positivity

/-- Witness for `backend_pdf_clamp` at x=38. -/
theorem backend_pdf_clamp_witness :
    |(38:ℝ)| > 37 ∧ Backend.normal_pdf 38 = 0 :=
  ⟨by norm_num, (backend_pdf_clamp 38).1 (by norm_num)⟩

theorem check_pos_T_call {S K T r P : ℝ} (hT : 0 < T) :
    _check_no_arbitrage_bounds S K T r .call P
      = if P > S + 1e-10 then .error (.priceAboveUpper P S)
        else if P < max 0 (S - K * Real.exp (-r * T)) - 1e-10 then
          .error (.priceBelowLower P (max 0 (S - K * Real.exp (-r * T))))
        else .ok () := by
  unfold _check_no_arbitrage_bounds
  rw [if_neg (not_le.mpr hT)]

theorem check_pos_T_put {S K T r P : ℝ} (hT : 0 < T) :
    _check_no_arbitrage_bounds S K T r .put P
      = if P > K * Real.exp (-r * T) + 1e-10 then
          .error (.priceAboveUpper P (K * Real.exp (-r * T)))
        else if P < max 0 (K * Real.exp (-r * T) - S) - 1e-10 then
          .error (.priceBelowLower P (max 0 (K * Real.exp (-r * T) - S)))
        else .ok () := by
  unfold _check_no_arbitrage_bounds
  rw [if_neg (not_le.mpr hT)]

theorem check_T0_call {S K T r P : ℝ} (hT : T ≤ 0) :
    _check_no_arbitrage_bounds S K T r .call P
      = if |P - max 0 (S - K)| > 1e-10 then .error (.priceOutsideT0 P) else .ok () := by
  unfold _check_no_arbitrage_bounds
  rw [if_pos hT]

theorem check_T0_put {S K T r P : ℝ} (hT : T ≤ 0) :
    _check_no_arbitrage_bounds S K T r .put P
      = if |P - max 0 (K - S)| > 1e-10 then .error (.priceOutsideT0 P) else .ok () := by
  unfold _check_no_arbitrage_bounds
  rw [if_pos hT]

theorem check_above_call {S K T r P : ℝ} (hT : 0 < T) (h : P > S + 1e-10) :
    _check_no_arbitrage_bounds S K T r .call P = .error (.priceAboveUpper P S) := by
  rw [check_pos_T_call hT, if_pos h]

theorem check_above_put {S K T r P : ℝ} (hT : 0 < T)
    (h : P > K * Real.exp (-r * T) + 1e-10) :
    _check_no_arbitrage_bounds S K T r .put P
      = .error (.priceAboveUpper P (K * Real.exp (-r * T))) := by
  rw [check_pos_T_put hT, if_pos h]

theorem check_below_call {S K T r P : ℝ} (hT : 0 < T) (hS : 0 < S) (hK : 0 < K)
    (h : P < max 0 (S - K * Real.exp (-r * T)) - 1e-10) :
    _check_no_arbitrage_bounds S K T r .call P
      = .error (.priceBelowLower P (max 0 (S - K * Real.exp (-r * T)))) := by
  have hKe : 0 < K * Real.exp (-r * T) := mul_pos hK (Real.exp_pos _)
  have hub : max 0 (S - K * Real.exp (-r * T)) ≤ S := max_le hS.le (by linarith)
  have hna : ¬ P > S + 1e-10 := by
    push_neg
    calc P ≤ max 0 (S - K * Real.exp (-r * T)) - 1e-10 := h.le
      _ ≤ S + 1e-10 := by linarith
  rw [check_pos_T_call hT, if_neg hna, if_pos h]

theorem check_below_put {S K T r P : ℝ} (hT : 0 < T) (hS : 0 < S) (hK : 0 < K)
    (h : P < max 0 (K * Real.exp (-r * T) - S) - 1e-10) :
    _check_no_arbitrage_bounds S K T r .put P
      = .error (.priceBelowLower P (max 0 (K * Real.exp (-r * T) - S))) := by
  have hKe : 0 < K * Real.exp (-r * T) := mul_pos hK (Real.exp_pos _)
  have hub : max 0 (K * Real.exp (-r * T) - S) ≤ K * Real.exp (-r * T) :=
    max_le hKe.le (by linarith)
  have hna : ¬ P > K * Real.exp (-r * T) + 1e-10 := by
    push_neg
    calc P ≤ max 0 (K * Real.exp (-r * T) - S) - 1e-10 := h.le
      _ ≤ K * Real.exp (-r * T) + 1e-10 := by linarith
  rw [check_pos_T_put hT, if_neg hna, if_pos h]

/-- C6: the no-arbitrage gate of `implied_vol_from_price`.  For T>0, a target
price above the model upper bound (S for calls, K·e^(-rT) for puts) by more
than 1e-10 yields the error naming the upper bound and its value; a price
below the lower bound (max(0,S-K·e^(-rT)) / max(0,K·e^(-rT)-S)) by more than
1e-10 yields the error naming the lower bound and its value.  For T≤0, a
price within 1e-10 of the intrinsic value returns exactly 0.0 immediately
(before the bracketing and iteration phases), and any other price yields the
T=0 out-of-bounds error. -/
theorem iv_no_arbitrage_gate (P S K r T tol : ℝ) (max_iter : ℕ) (is_call : Bool)
    (hS : 0 < S) (hK : 0 < K) :
    (0 < T → P > (if is_call then S else K * Real.exp (-r * T)) + 1e-10 →
      implied_vol_from_price P S K r T is_call tol max_iter
        = .error (.priceAboveUpper P (if is_call then S else K * Real.exp (-r * T)))) ∧
    (0 < T → P < (if is_call then max 0 (S - K * Real.exp (-r * T))
        else max 0 (K * Real.exp (-r * T) - S)) - 1e-10 →
      implied_vol_from_price P S K r T is_call tol max_iter
        = .error (.priceBelowLower P (if is_call then max 0 (S - K * Real.exp (-r * T))
            else max 0 (K * Real.exp (-r * T) - S)))) ∧
    (T ≤ 0 →
      (|P - (if is_call then max 0 (S - K) else max 0 (K - S))| ≤ 1e-10 →
        implied_vol_from_price P S K r T is_call tol max_iter = .ok 0) ∧
      (|P - (if is_call then max 0 (S - K) else max 0 (K - S))| > 1e-10 →
        implied_vol_from_price P S K r T is_call tol max_iter
          = .error (.priceOutsideT0 P))) := by
  cases is_call
  · refine ⟨fun hT h => ?_, fun hT h => ?_, fun hT => ⟨fun h => ?_, fun h => ?_⟩⟩
    · have hc := @check_above_put S K T r P hT (by simpa using h)
      simp [implied_vol_from_price, hc]
    · have hc := @check_below_put S K T r P hT hS hK (by simpa using h)
      simp [implied_vol_from_price, hc]
    · have hc := @check_T0_put S K T r P hT
      rw [if_neg (by simpa using not_lt.mpr h)] at hc
      simp [implied_vol_from_price, hc, hT]
    · have hc := @check_T0_put S K T r P hT
      rw [if_pos (by simpa using h)] at hc
      simp [implied_vol_from_price, hc]
  · refine ⟨fun hT h => ?_, fun hT h => ?_, fun hT => ⟨fun h => ?_, fun h => ?_⟩⟩
    · have hc := @check_above_call S K T r P hT (by simpa using h)
      simp [implied_vol_from_price, hc]
    · have hc := @check_below_call S K T r P hT hS hK (by simpa using h)
      simp [implied_vol_from_price, hc]
    · have hc := @check_T0_call S K T r P hT
      rw [if_neg (by simpa using not_lt.mpr h)] at hc
      simp [implied_vol_from_price, hc, hT]
    · have hc := @check_T0_call S K T r P hT
      rw [if_pos (by simpa using h)] at hc
      simp [implied_vol_from_price, hc]

/-- Witness for `iv_no_arbitrage_gate`: a call asked to match price S+1=101
fails naming the upper bound 100, and at T=0 the intrinsic price returns 0. -/
theorem iv_no_arbitrage_gate_witness :
    ((0:ℝ) < 100 ∧ (0:ℝ) < 1 ∧ (101:ℝ) > 100 + 1e-10 ∧
      implied_vol_from_price 101 100 100 0 1 true 1e-8 100
        = .error (.priceAboveUpper 101 100)) ∧
    ((0:ℝ) ≤ 0 ∧ |(1:ℝ) - max 0 (2 - 1)| ≤ 1e-10 ∧
      implied_vol_from_price 1 2 1 0 0 true 1e-8 100 = .ok 0) := by
  constructor
  · refine ⟨by norm_num, by norm_num, by norm_num, ?_⟩
    have h := (iv_no_arbitrage_gate 101 100 100 0 1 1e-8 100 true
      (by norm_num) (by norm_num)).1 (by norm_num) (by norm_num)
    simpa using h
  · refine ⟨le_rfl, by norm_num, ?_⟩
    have h := ((iv_no_arbitrage_gate 1 2 1 0 0 1e-8 100 true
      (by norm_num) (by norm_num)).2.2 le_rfl).1 (by norm_num)
    simpa using h

/-- C10: the Newton-phase bracket invariant.  The bracket endpoints are never
modified during the Newton polish (they are fixed parameters of
`newtonLoop`, as the Python loop never assigns them), so whenever the
near-zero-vega fallback `|vega| < 1e-12` triggers — after any number of
Newton steps — the solver returns exactly the bracket midpoint
`(sigma_low + sigma_high) / 2`, the value the Newton phase started from. -/
theorem newton_fallback_bracket (S K T r : ℝ) (ot : OptionType)
    (P tol sigma_low sigma_high : ℝ) (max_iter : ℕ) :
    ∀ n sigma_guess, HitsVegaFallback S K T r ot P tol n sigma_guess →
      newtonLoop S K T r ot P tol sigma_low sigma_high max_iter n sigma_guess
        = .ok ((sigma_low + sigma_high) / 2) := by
  intro n g h
  induction h with
  | here hf hftol hv hvsmall =>
      simp only [newtonLoop, hf]
      rw [if_neg hftol]
      simp only [hv]
      rw [if_pos hvsmall]
  | later hf hftol hv hvbig hstep _ ih =>
      simp only [newtonLoop, hf]
      rw [if_neg hftol]
      simp only [hv]
      rw [if_neg hvbig, if_neg hstep]
      exact ih

/-- Witness for `newton_fallback_bracket`: with sigma_guess=0 the vega is 0,
the fallback fires at once, and the Newton loop returns the bracket midpoint. -/
theorem newton_fallback_bracket_witness :
    HitsVegaFallback 2 1 1 0 .call 0 1e-8 1 0 ∧
    newtonLoop 2 1 1 0 .call 0 1e-8 1e-6 5 7 1 0 = .ok ((1e-6 + 5) / 2) := by
  have hp : _price_function 2 1 1 0 0 OptionType.call 0 = .ok 1 := by
    have h1 : price_call 2 1 1 0 0 = .ok (max 0 (2 - 1 * Real.exp (-0 * 1))) :=
      price_call_sigma0 (by norm_num) (by norm_num) (by norm_num)
    norm_num [_price_function, h1]
  have hv : _vega_function 2 1 1 0 0 = .ok 0 := by
    simp [_vega_function]
  have hhit : HitsVegaFallback 2 1 1 0 OptionType.call 0 1e-8 1 0 :=
    HitsVegaFallback.here hp (by norm_num) hv (by norm_num)
  exact ⟨hhit, newton_fallback_bracket 2 1 1 0 .call 0 1e-8 1e-6 5 7 1 0 hhit⟩

theorem price_function_call_main {S K T r sigma P : ℝ} (hS : 0 < S) (hK : 0 < K)
    (hσ : 0 < sigma) (hT : 0 < T) :
    _price_function S K T r sigma .call P = .ok (bsCall S K T r sigma - P) := by
  simp [_price_function, price_call_main hS hK hσ hT]

theorem bisect_first_hit {S K T r : ℝ} {ot : OptionType} {P tol : ℝ}
    {lo hi fl fh fm : ℝ} {n : ℕ} (hn : n ≠ 0)
    (h : _price_function S K T r ((lo + hi) / 2) ot P = .ok fm) (hm : |fm| < tol) :
    bisectLoop S K T r ot P tol n lo hi fl fh = .ok (.inl ((lo + hi) / 2)) := by
  obtain ⟨m, rfl⟩ := Nat.exists_eq_succ_of_ne_zero hn
  simp only [bisectLoop, h]
  rw [if_pos hm]

theorem runPhases_inl {S K T r : ℝ} {ot : OptionType} {P tol : ℝ} {max_iter : ℕ}
    {lo hi fl fh m : ℝ}
    (h : bisectLoop S K T r ot P tol max_iter lo hi fl fh = .ok (.inl m)) :
    runPhases S K T r ot P tol max_iter lo hi fl fh = .ok m := by
  simp [runPhases, h]

/-! Facts about the deep-in-the-money instance S=100, K=1, T=1e-4, r=0 used
to refute the implied-volatility round-trip claim: over the whole bracket
range the Black-Scholes price is within 1e-28 of 99, so the solver's
tolerance test fires at the first bisection midpoint. -/

theorem c2_sqrtT : Real.sqrt 1e-4 = 1 / 100 := by
  rw [show (1e-4:ℝ) = (1/100) ^ 2 by norm_num, Real.sqrt_sq (by norm_num : (0:ℝ) ≤ 1/100)]

theorem log_100_ge : (4:ℝ) ≤ Real.log 100 := by
  rw [Real.le_log_iff_exp_le (by norm_num : (0:ℝ) < 100)]
  have h1 : Real.exp (4:ℝ) = Real.exp 1 ^ 4 := by
    rw [← Real.exp_nat_mul]
    norm_num
  have h2 : Real.exp 1 ≤ 2.7182818286 := Real.exp_one_lt_d9.le
  calc Real.exp 4 = Real.exp 1 ^ 4 := h1
    _ ≤ 2.7182818286 ^ 4 := pow_le_pow_left₀ (Real.exp_pos 1).le h2 4
    _ ≤ 100 := by norm_num

theorem c2_d1_ge {sigma : ℝ} (h0 : 0 < sigma) (h10 : sigma ≤ 10) :
    40 ≤ d1v 100 1 0 sigma 1e-4 := by
  unfold d1v
  rw [c2_sqrtT]
  have hlog := log_100_ge
  have h100 : (100:ℝ) / 1 = 100 := by norm_num
  rw [h100]
  have hnum : (4:ℝ) ≤ Real.log 100 + (0 + 0.5 * sigma * sigma) * 1e-4 := by nlinarith
  have hden : 0 < sigma * (1 / 100) := by positivity
  have hden10 : sigma * (1 / 100) ≤ 1 / 10 := by linarith
  calc (40:ℝ) = 4 / (1 / 10) := by norm_num
    _ ≤ 4 / (sigma * (1 / 100)) := div_le_div_of_nonneg_left (by norm_num) hden hden10
    _ ≤ (Real.log 100 + (0 + 0.5 * sigma * sigma) * 1e-4) / (sigma * (1 / 100)) :=
        (div_le_div_right hden).mpr hnum

theorem c2_band {sigma : ℝ} (h0 : 0 < sigma) (h10 : sigma ≤ 10) :
    |bsCall 100 1 1e-4 0 sigma - 99| ≤ 1e-28 := by
  have hd1 := c2_d1_ge h0 h10
  have hd2 : 39 ≤ d2v 100 1 0 sigma 1e-4 := by
    unfold d2v
    rw [c2_sqrtT]
    linarith
  have ha1 := normal_cdf_near_one (le_trans (by norm_num : (39:ℝ) ≤ 40) hd1)
  have ha2 := normal_cdf_near_one hd2
  have hb1 := normal_cdf_le_one (d1v 100 1 0 sigma 1e-4)
  have hb2 := normal_cdf_le_one (d2v 100 1 0 sigma 1e-4)
  unfold bsCall
  have he : Real.exp (-(0:ℝ) * 1e-4) = 1 := by norm_num
  rw [he, abs_le]
  constructor <;> nlinarith

/-- C2 (amended): the solver's actual σ-exit guarantee is in price space: any
value returned by the bisection phase's tolerance exit reprices the option to
within `tol` of the target price.  σ-space accuracy — recovering the original
volatility to 1e-6 — fails in near-flat-vega regimes (see the
counterexample), where the tolerance test fires at a bracket midpoint far
from the input volatility. -/
theorem iv_bisect_exit_residual (S K T r : ℝ) (ot : OptionType) (P tol : ℝ) :
    ∀ (n : ℕ) (lo hi fl fh m : ℝ),
      bisectLoop S K T r ot P tol n lo hi fl fh = .ok (.inl m) →
      ∃ fm, _price_function S K T r m ot P = .ok fm ∧ |fm| < tol := by
  intro n
  induction n with
  | zero =>
      intro lo hi fl fh m h
      simp [bisectLoop] at h
  | succ n ih =>
      intro lo hi fl fh m h
      rcases hp : _price_function S K T r ((lo + hi) / 2) ot P with e | fm0
      · simp only [bisectLoop, hp] at h
        exact Except.noConfusion h
      · simp only [bisectLoop, hp] at h
        by_cases h1 : |fm0| < tol
        · rw [if_pos h1] at h
          have hm := Sum.inl.inj (Except.ok.inj h)
          rw [← hm]
          exact ⟨fm0, hp, h1⟩
        · rw [if_neg h1] at h
          by_cases h2 : fm0 * fl > 0
          · rw [if_pos h2] at h
            exact ih _ _ _ _ _ h
          · rw [if_neg h2] at h
            exact ih _ _ _ _ _ h

/-- Witness for `iv_bisect_exit_residual`: a one-step bisection run whose
midpoint passes the tolerance test. -/
theorem iv_bisect_exit_residual_witness :
    bisectLoop 2 1 1 0 .call 1 1e-8 1 0 0 0 0 = .ok (.inl 0) ∧
    ∃ fm, _price_function 2 1 1 0 0 .call 1 = .ok fm ∧ |fm| < 1e-8 := by
  have hp0 : _price_function 2 1 1 0 ((0 + 0) / 2 : ℝ) OptionType.call 1 = .ok 0 := by
    have h1 : price_call 2 1 1 0 0 = .ok (max 0 (2 - 1 * Real.exp (-0 * 1))) :=
      price_call_sigma0 (by norm_num) (by norm_num) (by norm_num)
    rw [show ((0:ℝ) + 0) / 2 = 0 by norm_num]
    norm_num [_price_function, h1, Real.exp_zero]
  have hb : bisectLoop 2 1 1 0 OptionType.call 1 1e-8 1 0 0 0 0
      = .ok (.inl ((0 + 0) / 2 : ℝ)) :=
    bisect_first_hit (by norm_num) hp0 (by norm_num)
  have hb0 : bisectLoop 2 1 1 0 OptionType.call 1 1e-8 1 0 0 0 0 = .ok (.inl 0) := by
    rw [hb]
    norm_num
  exact ⟨hb0, iv_bisect_exit_residual 2 1 1 0 .call 1 1e-8 1 0 0 0 0 0 hb0⟩

/-- Counterexample to C2: for the deep-in-the-money, short-expiry instance
S=100, K=1, T=1e-4, r=0 and input volatility sigma=1/2, the solver — however
the initial sign tests resolve — either fails to bracket or returns one of
the first bisection midpoints 2.5000005, 2.500000005, 5.000000005, each more
than 1e-6 away from 1/2: the round-trip property fails. -/
theorem iv_roundtrip_cex :
    ¬ ∃ P v, price_call 100 1 1e-4 0 (1/2) = .ok P ∧
        implied_vol_from_price P 100 1 0 1e-4 true 1e-8 100 = .ok v ∧
        |v - 1/2| ≤ 1e-6 := by
  rintro ⟨P, v, hP, hiv, hclose⟩
  have hPc : price_call 100 1 1e-4 0 (1/2) = .ok (bsCall 100 1 1e-4 0 (1/2)) :=
    price_call_main (by norm_num) (by norm_num) (by norm_num) (by norm_num)
  rw [hPc] at hP
  have hPeq : bsCall 100 1 1e-4 0 (1/2) = P := Except.ok.inj hP
  have hPband : |P - 99| ≤ 1e-28 := by
    rw [← hPeq]
    exact c2_band (by norm_num) (by norm_num)
  have habs := abs_le.mp hPband
  have hf : ∀ sigma : ℝ, 0 < sigma → sigma ≤ 10 →
      |bsCall 100 1 1e-4 0 sigma - P| < 1e-8 := by
    intro σ h0 h10
    have h1 := c2_band h0 h10
    have h2 : |bsCall 100 1 1e-4 0 σ - P|
        ≤ |bsCall 100 1 1e-4 0 σ - 99| + |99 - P| := abs_sub_le _ 99 _
    rw [abs_sub_comm 99 P] at h2
    have h3 := abs_le.mp h1
    have h4 := abs_le.mp hPband
    have h5 : |bsCall 100 1 1e-4 0 σ - 99| + |P - 99| < 1e-8 := by
      have := abs_le.mp hPband
      calc |bsCall 100 1 1e-4 0 σ - 99| + |P - 99| ≤ 1e-28 + 1e-28 := by
            exact add_le_add h1 hPband
        _ < 1e-8 := by norm_num
    linarith
  have hmax : max (0:ℝ) (100 - 1 * Real.exp (-0 * 1e-4)) = 99 := by
    norm_num [Real.exp_zero]
  have hchk : _check_no_arbitrage_bounds 100 1 1e-4 0 .call P = .ok () := by
    have h1 : ¬ ((P:ℝ) > 100 + 1e-10) := by
      push_neg
      linarith [habs.2]
    have h2 : ¬ (P < max (0:ℝ) (100 - 1 * Real.exp (-0 * 1e-4)) - 1e-10) := by
      rw [hmax]
      push_neg
      linarith [habs.1]
    rw [check_pos_T_call (by norm_num : (0:ℝ) < 1e-4), if_neg h1, if_neg h2]
  have h6 : _price_function 100 1 1e-4 0 1e-6 .call P
      = .ok (bsCall 100 1 1e-4 0 1e-6 - P) :=
    price_function_call_main (by norm_num) (by norm_num) (by norm_num) (by norm_num)
  have h5 : _price_function 100 1 1e-4 0 5 .call P
      = .ok (bsCall 100 1 1e-4 0 5 - P) :=
    price_function_call_main (by norm_num) (by norm_num) (by norm_num) (by norm_num)
  have h8 : _price_function 100 1 1e-4 0 1e-8 .call P
      = .ok (bsCall 100 1 1e-4 0 1e-8 - P) :=
    price_function_call_main (by norm_num) (by norm_num) (by norm_num) (by norm_num)
  have h10v : _price_function 100 1 1e-4 0 10 .call P
      = .ok (bsCall 100 1 1e-4 0 10 - P) :=
    price_function_call_main (by norm_num) (by norm_num) (by norm_num) (by norm_num)
  have hm1 : _price_function 100 1 1e-4 0 ((1e-6 + 5) / 2) .call P
      = .ok (bsCall 100 1 1e-4 0 ((1e-6 + 5) / 2) - P) :=
    price_function_call_main (by norm_num) (by norm_num) (by norm_num) (by norm_num)
  have hm2 : _price_function 100 1 1e-4 0 ((1e-8 + 5) / 2) .call P
      = .ok (bsCall 100 1 1e-4 0 ((1e-8 + 5) / 2) - P) :=
    price_function_call_main (by norm_num) (by norm_num) (by norm_num) (by norm_num)
  have hm3 : _price_function 100 1 1e-4 0 ((1e-8 + 10) / 2) .call P
      = .ok (bsCall 100 1 1e-4 0 ((1e-8 + 10) / 2) - P) :=
    price_function_call_main (by norm_num) (by norm_num) (by norm_num) (by norm_num)
  simp only [implied_vol_from_price, if_true, hchk, h6, h5, h8, h10v] at hiv
  rw [if_neg (by norm_num : ¬ ((1e-4:ℝ) ≤ 0))] at hiv
  by_cases hb1 : (bsCall 100 1 1e-4 0 1e-6 - P) * (bsCall 100 1 1e-4 0 5 - P) > 0
  · rw [if_pos hb1] at hiv
    by_cases hb2 : (bsCall 100 1 1e-4 0 1e-8 - P) * (bsCall 100 1 1e-4 0 5 - P) > 0
    · rw [if_pos hb2] at hiv
      by_cases hb3 : (bsCall 100 1 1e-4 0 1e-8 - P) * (bsCall 100 1 1e-4 0 10 - P) > 0
      · rw [if_pos hb3] at hiv
        exact absurd hiv (by simp)
      · rw [if_neg hb3] at hiv
        have hrun : runPhases 100 1 1e-4 0 OptionType.call P 1e-8 100 1e-8 10
            (bsCall 100 1 1e-4 0 1e-8 - P) (bsCall 100 1 1e-4 0 10 - P)
            = .ok ((1e-8 + 10) / 2) :=
          runPhases_inl (bisect_first_hit (by norm_num : (100:ℕ) ≠ 0) hm3
            (hf _ (by norm_num) (by norm_num)))
        rw [hrun] at hiv
        have hveq := Except.ok.inj hiv
        rw [← hveq, abs_le] at hclose
        norm_num at hclose
    · rw [if_neg hb2] at hiv
      have hrun : runPhases 100 1 1e-4 0 OptionType.call P 1e-8 100 1e-8 5
          (bsCall 100 1 1e-4 0 1e-8 - P) (bsCall 100 1 1e-4 0 5 - P)
          = .ok ((1e-8 + 5) / 2) :=
        runPhases_inl (bisect_first_hit (by norm_num : (100:ℕ) ≠ 0) hm2
          (hf _ (by norm_num) (by norm_num)))
      rw [hrun] at hiv
      have hveq := Except.ok.inj hiv
      rw [← hveq, abs_le] at hclose
      norm_num at hclose
  · rw [if_neg hb1] at hiv
    have hrun : runPhases 100 1 1e-4 0 OptionType.call P 1e-8 100 1e-6 5
        (bsCall 100 1 1e-4 0 1e-6 - P) (bsCall 100 1 1e-4 0 5 - P)
        = .ok ((1e-6 + 5) / 2) :=
      runPhases_inl (bisect_first_hit (by norm_num : (100:ℕ) ≠ 0) hm1
        (hf _ (by norm_num) (by norm_num)))
    rw [hrun] at hiv
    have hveq := Except.ok.inj hiv
    rw [← hveq, abs_le] at hclose
    norm_num at hclose

end QuantPricer
